import Mathlib

/-!
# Verification of the used-vehicle dashboard (`app.py`)

A shallow embedding of the data queries of the Streamlit dashboard in
`src/app.py`, followed by proofs about them.  A pandas `DataFrame` is a list of
column names plus a list of rows; a missing cell (`NaN`) is `none`.  Numeric
columns are modelled as rationals, categorical columns as strings.  Pandas
behaviours exercised by the code are modelled where they are used; each
definition's doc comment names the line of `app.py` it embeds and the library
behaviour it relies on.
-/

namespace VehiclesDash

/-- One row of the vehicles table.  Each cell is `Option`-valued: `none` models a
missing value (pandas `NaN`). -/
structure Listing where
  manufacturer : Option String
  model : Option String
  year : Option ℚ
  price : Option ℚ
  lat : Option ℚ
  long : Option ℚ
  cylinders : Option String
  fuel : Option String
  drive : Option String
  type : Option String
  transmission : Option String
deriving DecidableEq

/-- A pandas DataFrame: the column names together with the rows.  The empty
frame `pd.DataFrame()` (returned by `load_data` on failure) is `⟨[], []⟩`. -/
structure Frame where
  cols : List String
  rows : List Listing
deriving DecidableEq

/-- The column names of a fully parsed `vehicles.csv`. -/
def allCols : List String :=
  ["manufacturer", "model", "year", "price", "lat", "long", "cylinders",
    "fuel", "drive", "type", "transmission"]

/-- The nine columns of the `dropna(subset=[...])` call (app.py line 13). -/
def requiredCols : List String :=
  ["manufacturer", "model", "year", "price", "lat", "long", "cylinders",
    "fuel", "drive"]

/-- True iff the row has a non-null entry in each of the nine required columns;
`dropna(subset=requiredCols)` keeps exactly these rows. -/
def requiredNonNull (l : Listing) : Bool :=
  l.manufacturer.isSome && l.model.isSome && l.year.isSome && l.price.isSome &&
    l.lat.isSome && l.long.isSome && l.cylinders.isSome && l.fuel.isSome &&
    l.drive.isSome

/-- `load_data` (app.py lines 10-17).  The argument models the outcome of
`pd.read_csv("vehicles.csv")`: `Except.error e` is a read/parse failure raising
an exception with message `e`, `Except.ok f` a successfully parsed frame.
`dropna(subset=...)` raises a `KeyError` when a subset column is absent, which
the `except` branch catches as well.  The second component is the message shown
by `st.error` (`none` when no error is reported).  The function is total: it
never raises and never ends the process. -/
def load_data (src : Except String Frame) : Frame × Option String :=
  match src with
  | .error e => (⟨[], []⟩, some ("Error loading data: " ++ e))
  | .ok f =>
    if requiredCols.all (fun c => f.cols.contains c) then
      (⟨f.cols, f.rows.filter requiredNonNull⟩, none)
    else
      (⟨[], []⟩, some "Error loading data: KeyError")

/-- The distinct values of a list, in order of first occurrence.  This is the
key order the pandas hash table produces in `value_counts`. -/
def firstSeen : List String → List String
  | [] => []
  | x :: t => x :: (firstSeen t).filter (fun y => !(y == x))

/-- Position of the first occurrence of `a` in `l` (the row-order position of
the first row carrying the value `a`). -/
def firstIdx (a : String) (l : List String) : Nat := l.findIdx (fun y => y == a)

/-- `Series.nunique()`: the number of distinct non-null values. -/
def nunique (xs : List (Option String)) : Nat := (firstSeen (xs.filterMap id)).length

/-- The three numbers of the Home page metrics block. -/
structure Metrics where
  totalListings : Nat
  uniqueManufacturers : Nat
  uniqueModels : Nat
deriving DecidableEq

/-- Home page metrics block (app.py lines 52-58): `len(df)`,
`df['manufacturer'].nunique()`, `df['model'].nunique()`.  Column access `df[c]`
raises a `KeyError` when `c` is not a column of `df`, so the block fails
(`none`) on a frame lacking either column — in particular on the zero-column
frame `pd.DataFrame()` produced by a load failure. -/
def summaryMetrics (f : Frame) : Option Metrics :=
  if f.cols.contains "manufacturer" && f.cols.contains "model" then
    some ⟨f.rows.length, nunique (f.rows.map (·.manufacturer)),
      nunique (f.rows.map (·.model))⟩
  else none

/-- Lexicographic comparison of character lists by code point: Python's `<=` on
`str`, the order numpy and pandas use to sort object-dtype string values. -/
def chLe : List Char → List Char → Bool
  | [], _ => true
  | _ :: _, [] => false
  | a :: as, b :: bs => if a = b then chLe as bs else decide (a < b)

/-- Python string `<=` (lexicographic by code point). -/
def strLe (a b : String) : Bool := chLe a.data b.data

/-- Python string `<` (lexicographic by code point). -/
def strLt (a b : String) : Bool := strLe a b && !(a == b)

/-- Python `str.lower` (the dataset's categorical values are ASCII, on which
`Char.toLower` agrees with Python). -/
def pyLower (s : String) : String := String.mk (s.data.map Char.toLower)

/-- Insert `a` in front of the first element `b` with `le a b`. -/
def insertLe (le : α → α → Bool) (a : α) : List α → List α
  | [] => [a]
  | b :: bs => if le a b then a :: b :: bs else b :: insertLe le a bs

/-- Structural insertion sort; stable, so ties keep their input order. -/
def isort (le : α → α → Bool) : List α → List α
  | [] => []
  | a :: as => insertLe le a (isort le as)

/-- Descending-by-count comparison used to sort `value_counts` entries. -/
def cntGe (p q : String × Nat) : Bool := decide (q.2 ≤ p.2)

/-- `Series.value_counts()`: the distinct non-null values in order of first
appearance, paired with their occurrence counts, stably sorted by count
descending — so tied counts keep first-appearance order. -/
def valueCounts (xs : List String) : List (String × Nat) :=
  isort cntGe ((firstSeen xs).map (fun k => (k, xs.count k)))

/-- Most Listed Vehicle Brands block (app.py lines 106-113):
`df.manufacturer.value_counts().nlargest(10)`.  `value_counts` drops nulls, and
`nlargest(10)` (default `keep='first'`) on the count-sorted series keeps its
first ten entries. -/
def topManufacturers (f : Frame) : List (String × Nat) :=
  (valueCounts (f.rows.filterMap (fun l => l.manufacturer))).take 10

/-- One anchored step of Python `re.search`: does the pattern match a prefix of
the text?  Modelled for patterns whose characters are literals or the
metacharacter `.` (which matches any character except a newline); the search
strings appearing in the claims use only such patterns. -/
def reMatchHere : List Char → List Char → Bool
  | [], _ => true
  | _ :: _, [] => false
  | p :: ps, c :: cs =>
    (if p = '.' then decide (c ≠ '\n') else decide (p = c)) && reMatchHere ps cs

/-- Helper of `reSearch`: try to match at every start position. -/
def reSearchAux (p : List Char) : List Char → Bool
  | [] => reMatchHere p []
  | c :: cs => reMatchHere p (c :: cs) || reSearchAux p cs

/-- Python `re.search(pat, s) is not None`.  `Series.str.contains(pat)` with its
default `regex=True` computes exactly this on each cell. -/
def reSearch (pat s : String) : Bool := reSearchAux pat.data s.data

/-- Helper of `litContains`: does `p` occur as a contiguous run? -/
def litContainsAux (p : List Char) : List Char → Bool
  | [] => p.isEmpty
  | c :: cs => p.isPrefixOf (c :: cs) || litContainsAux p cs

/-- Literal (non-regex) substring containment, Python `pat in s`: the reading of
"models whose name contains it" in the specification. -/
def litContains (pat s : String) : Bool := litContainsAux pat.data s.data

/-- `Series.mean()`: arithmetic mean of the non-null values, `NaN` (`none`) when
there are none. -/
def seriesMean (xs : List (Option ℚ)) : Option ℚ :=
  let vs := xs.filterMap id
  if vs.isEmpty then none else some (vs.sum / (vs.length : ℚ))

/-- Rational `<=` as a Bool, for sorting. -/
def ratLe (a b : ℚ) : Bool := decide (a ≤ b)

/-- `Series.median()` over non-null values: sort ascending; an odd count takes
the middle value, an even count the mean of the two middle values; `NaN`
(`none`) when there are none. -/
def median (xs : List ℚ) : Option ℚ :=
  let s := isort ratLe xs
  if s.isEmpty then none
  else if s.length % 2 = 1 then some (s.getD (s.length / 2) 0)
  else some ((s.getD (s.length / 2 - 1) 0 + s.getD (s.length / 2) 0) / 2)

/-- Python `int()` on a float: truncation toward zero. -/
def intTrunc (q : ℚ) : ℤ := if q < 0 then -⌊-q⌋ else ⌊q⌋

/-- The `year` aggregation lambda (app.py line 83):
`int(x.median()) if not x.isnull().all() else 'N/A'`; `none` renders as `N/A`,
and `x.isnull().all()` holds exactly when no non-null value exists, i.e. when
the skipna median is `none`. -/
def yearStat (xs : List (Option ℚ)) : Option ℤ :=
  (median (xs.filterMap id)).map intTrunc

/-- `Series.mode()`: the distinct non-null values of highest frequency, sorted
ascending (pandas returns the modes in sorted order). -/
def pdMode (xs : List (Option String)) : List String :=
  let vs := xs.filterMap id
  let ks := isort strLe (firstSeen vs)
  let mx := (ks.map (fun k => vs.count k)).foldr max 0
  ks.filter (fun k => vs.count k == mx)

/-- The categorical aggregation lambdas (app.py lines 78-82):
`x.mode().iat[0] if not x.mode().empty else 'N/A'`; `none` renders as `N/A`. -/
def modeStat (xs : List (Option String)) : Option String := (pdMode xs).head?

/-- One row of the `grouped` frame of the Models-by-Company page (app.py
lines 76-84); `none` in a categorical or year field renders as `N/A`. -/
structure ModelSummary where
  model : String
  price : Option ℚ
  drive : Option String
  type : Option String
  transmission : Option String
  fuel : Option String
  cylinders : Option String
  year : Option ℤ
deriving DecidableEq

/-- The aggregation of one `groupby('model')` group (app.py lines 76-84);
groups keep the original row order, and each lambda sees the group's column. -/
def summarize (m : String) (g : List Listing) : ModelSummary :=
  { model := m
    price := seriesMean (g.map (·.price))
    drive := modeStat (g.map (·.drive))
    type := modeStat (g.map (·.type))
    transmission := modeStat (g.map (·.transmission))
    fuel := modeStat (g.map (·.fuel))
    cylinders := modeStat (g.map (·.cylinders))
    year := yearStat (g.map (·.year)) }

/-- `df[df['manufacturer'] == brand].dropna(subset=['model'])` (app.py line 67);
`NaN == brand` is false, so null manufacturers are dropped by the equality. -/
def brandRows (f : Frame) (brand : String) : List Listing :=
  (f.rows.filter (fun l => l.manufacturer == some brand)).filter
    (fun l => l.model.isSome)

/-- The rows remaining after the optional search (app.py lines 69-73):
`search_query = st.text_input(...).lower()` is falsy when empty, otherwise
`brand_df = brand_df[brand_df['model'].str.lower().str.contains(search_query)]`
with `str.contains` in its default `regex=True` mode. -/
def searchedRows (f : Frame) (brand search : String) : List Listing :=
  let bd := brandRows f brand
  let q := pyLower search
  if q.isEmpty then bd
  else bd.filter (fun l => reSearch q (pyLower (l.model.getD "")))

/-- The group keys of `groupby('model')` with its default `sort=True`: the
distinct model names in ascending order. -/
def modelKeys (rows : List Listing) : List String :=
  isort strLe (firstSeen (rows.filterMap (fun l => l.model)))

/-- The rows of one group: `groupby` groups by exact key equality and keeps the
original row order inside each group. -/
def groupOf (rows : List Listing) (m : String) : List Listing :=
  rows.filter (fun l => l.model == some m)

/-- Models by Company block (app.py lines 62-100): filter to the selected brand,
drop null models, optionally filter by the search string, group by model and
aggregate; each `if not ... empty` guard renders a warning and no summaries.
`grouped.reset_index()` and `iterrows` keep the group-key order. -/
def modelsForManufacturer (f : Frame) (brand search : String) :
    List ModelSummary :=
  let bd := brandRows f brand
  if bd.isEmpty then []
  else
    let sr := searchedRows f brand search
    if sr.isEmpty then []
    else (modelKeys sr).map (fun m => summarize m (groupOf sr m))

/-- Transmission vs Type block (app.py lines 117-124): `px.histogram(df,
x="transmission", color="type")` receives one (transmission, type) pair per
row of the frame. -/
def transmissionByType (f : Frame) : List (Option String × Option String) :=
  f.rows.map (fun l => (l.transmission, l.type))

/-- The data handed to folium by the Brand-Specific Heatmap block. -/
structure HeatView where
  centerLat : Option ℚ
  centerLong : Option ℚ
  points : List (Option ℚ × Option ℚ)
deriving DecidableEq

/-- Brand-Specific Heatmap block (app.py lines 135-147): filter the rows to the
selected manufacturer; when the filtered set is empty render a warning
(`none`), otherwise center the map at the mean latitude and longitude of the
filtered rows and emit one (lat, long) point per filtered row. -/
def brandHeatPoints (f : Frame) (brand : String) : Option HeatView :=
  let bd := f.rows.filter (fun l => l.manufacturer == some brand)
  if bd.isEmpty then none
  else some ⟨seriesMean (bd.map (·.lat)), seriesMean (bd.map (·.long)),
    bd.map (fun l => (l.lat, l.long))⟩

/-- Modelled from the spec's words (its tie policy for the modal value): the
value of highest frequency among the group's non-null values that appears first
in the group's row order.  Stated only to be compared against `modeStat`. -/
def specFirstSeenMode (xs : List (Option String)) : Option String :=
  let vs := xs.filterMap id
  (firstSeen vs).find? (fun k => decide (∀ w ∈ vs, vs.count w ≤ vs.count k))

/-- Modelled from the spec's words (its search filter): keep the rows whose
model name contains the search string case-insensitively, with containment read
literally.  Stated only to be compared against `searchedRows`. -/
def specSearchedRows (f : Frame) (brand search : String) : List Listing :=
  (brandRows f brand).filter
    (fun l => litContains (pyLower search) (pyLower (l.model.getD "")))

/-- Per-column contract of the categorical aggregation: the result is `N/A`
(`none`) exactly when the column has no non-null value in the group, and
otherwise a value of highest frequency among the group's non-null values. -/
def modalOk (vals : List (Option String)) (r : Option String) : Prop :=
  (r = none ↔ vals.filterMap id = []) ∧
    ∀ v, r = some v → v ∈ vals.filterMap id ∧
      ∀ w ∈ vals.filterMap id,
        (vals.filterMap id).count w ≤ (vals.filterMap id).count v

/-! ### Concrete data used in closed checks -/

/-- A fully populated row. -/
def exRow : Listing :=
  { manufacturer := some "ford", model := some "f-150", year := some 2015,
    price := some 25000, lat := some 42, long := some 83,
    cylinders := some "6 cylinders", fuel := some "gas", drive := some "4wd",
    type := some "truck", transmission := some "automatic" }

/-- `exRow` with null type and transmission (all nine required fields set). -/
def exRowNullType : Listing := { exRow with type := none, transmission := none }

/-- The column list of a source file that lacks the `price` column. -/
def colsNoPrice : List String :=
  ["manufacturer", "model", "year", "lat", "long", "cylinders", "fuel",
    "drive", "type", "transmission"]

/-- A row with the given manufacturer and nothing else, for counting checks. -/
def mfRow (m : String) : Listing :=
  ⟨some m, none, none, none, none, none, none, none, none, none, none⟩

/-- A frame with counts A:5, B:5, C:3 and A first seen before B. -/
def exF5 : Frame :=
  ⟨allCols,
    [mfRow "A", mfRow "A", mfRow "A", mfRow "A", mfRow "A", mfRow "B",
      mfRow "B", mfRow "B", mfRow "B", mfRow "B", mfRow "C", mfRow "C",
      mfRow "C"]⟩

/-- Two one-manufacturer rows at (lat 10, long 20) and (lat 30, long 40). -/
def exF6 : Frame :=
  ⟨allCols,
    [⟨some "X", none, none, none, some 10, some 20, none, none, none, none,
        none⟩,
      ⟨some "X", none, none, none, some 30, some 40, none, none, none, none,
        none⟩]⟩

/-- A one-row frame for the search counterexample. -/
def exF7 : Frame :=
  ⟨allCols,
    [{ manufacturer := some "m", model := some "xyz", year := none,
       price := none, lat := none, long := none, cylinders := none,
       fuel := none, drive := none, type := none, transmission := none }]⟩

/-- A one-row frame, manufacturer `m`, model `x`. -/
def exF8 : Frame :=
  ⟨allCols,
    [⟨some "m", some "x", none, none, none, none, none, none, none, none,
        none⟩]⟩

/-! ### Properties of the character-list order -/

theorem chLe_refl : ∀ l : List Char, chLe l l = true
  | [] => rfl
  | a :: as => by simp [chLe, chLe_refl as]

theorem chLe_trans :
    ∀ {l₁ l₂ l₃ : List Char}, chLe l₁ l₂ = true → chLe l₂ l₃ = true →
      chLe l₁ l₃ = true
  | [], _, _, _, _ => rfl
  | _ :: _, [], _, h₁, _ => by simp [chLe] at h₁
  | _ :: _, _ :: _, [], _, h₂ => by simp [chLe] at h₂
  | a :: as, b :: bs, c :: cs, h₁, h₂ => by
    simp only [chLe] at h₁ h₂ ⊢
    by_cases hab : a = b <;> by_cases hbc : b = c
    · subst hab; subst hbc
      simpa using chLe_trans (by simpa using h₁) (by simpa using h₂)
    · subst hab
      rw [if_neg hbc] at h₂ ⊢
      exact h₂
    · subst hbc
      rw [if_neg hab] at h₁ ⊢
      exact h₁
    · rw [if_neg hab, decide_eq_true_eq] at h₁
      rw [if_neg hbc, decide_eq_true_eq] at h₂
      have hac : a < c := lt_trans h₁ h₂
      have hne : a ≠ c := by rintro rfl; exact absurd hac (lt_irrefl a)
      rw [if_neg hne, decide_eq_true_eq]
      exact hac

theorem chLe_total :
    ∀ l₁ l₂ : List Char, chLe l₁ l₂ = true ∨ chLe l₂ l₁ = true
  | [], _ => Or.inl rfl
  | _ :: _, [] => Or.inr rfl
  | a :: as, b :: bs => by
    simp only [chLe]
    by_cases hab : a = b
    · subst hab; simpa using chLe_total as bs
    · rcases lt_or_gt_of_ne hab with h | h
      · exact Or.inl (by rw [if_neg hab, decide_eq_true_eq]; exact h)
      · exact Or.inr
          (by rw [if_neg (Ne.symm hab), decide_eq_true_eq]; exact h)

theorem strLe_refl (a : String) : strLe a a = true := chLe_refl _

theorem strLe_trans {a b c : String} (h₁ : strLe a b = true)
    (h₂ : strLe b c = true) : strLe a c = true := chLe_trans h₁ h₂

theorem strLe_total (a b : String) : strLe a b = true ∨ strLe b a = true :=
  chLe_total _ _

theorem strLt_of_strLe_of_ne {a b : String} (h : strLe a b = true)
    (hne : a ≠ b) : strLt a b = true := by
  simp [strLt, h, hne]

/-! ### Properties of the insertion sort -/

theorem perm_insertLe (le : α → α → Bool) (a : α) :
    ∀ l : List α, (insertLe le a l).Perm (a :: l)
  | [] => List.Perm.refl _
  | b :: bs => by
    simp only [insertLe]
    by_cases h : le a b = true
    · rw [if_pos h]
    · rw [if_neg h]
      exact ((perm_insertLe le a bs).cons b).trans (List.Perm.swap a b bs)

theorem perm_isort (le : α → α → Bool) :
    ∀ l : List α, (isort le l).Perm l
  | [] => List.Perm.refl _
  | a :: as =>
    (perm_insertLe le a (isort le as)).trans ((perm_isort le as).cons a)

theorem mem_isort {le : α → α → Bool} {a : α} {l : List α} :
    a ∈ isort le l ↔ a ∈ l := (perm_isort le l).mem_iff

theorem pairwise_insertLe {le : α → α → Bool}
    (htrans : ∀ a b c, le a b = true → le b c = true → le a c = true)
    (htotal : ∀ a b, le a b = true ∨ le b a = true) (a : α) :
    ∀ {l : List α}, l.Pairwise (fun x y => le x y = true) →
      (insertLe le a l).Pairwise (fun x y => le x y = true)
  | [], _ => by simp [insertLe]
  | b :: bs, h => by
    simp only [insertLe]
    rcases List.pairwise_cons.mp h with ⟨hb, hbs⟩
    by_cases hab : le a b = true
    · rw [if_pos hab]
      refine List.pairwise_cons.mpr ⟨?_, h⟩
      intro x hx
      rcases List.mem_cons.mp hx with rfl | hx
      · exact hab
      · exact htrans _ _ _ hab (hb x hx)
    · rw [if_neg hab]
      refine List.pairwise_cons.mpr ⟨?_, pairwise_insertLe htrans htotal a hbs⟩
      intro x hx
      rcases List.mem_cons.mp ((perm_insertLe le a bs).mem_iff.mp hx) with
        heq | hx
      · rw [heq]; exact (htotal a b).resolve_left hab
      · exact hb x hx

theorem pairwise_isort {le : α → α → Bool}
    (htrans : ∀ a b c, le a b = true → le b c = true → le a c = true)
    (htotal : ∀ a b, le a b = true ∨ le b a = true) :
    ∀ l : List α, (isort le l).Pairwise (fun x y => le x y = true)
  | [] => List.Pairwise.nil
  | a :: as =>
    pairwise_insertLe htrans htotal a (pairwise_isort htrans htotal as)

/-! ### Stability of the descending count sort -/

theorem filter_insertLe_cnt (c : Nat) (p : String × Nat) :
    ∀ l : List (String × Nat),
      (insertLe cntGe p l).filter (fun x => x.2 == c) =
        if p.2 == c then p :: l.filter (fun x => x.2 == c)
        else l.filter (fun x => x.2 == c)
  | [] => by
    by_cases h : p.2 == c <;> simp [insertLe, List.filter, h]
  | q :: qs => by
    simp only [insertLe]
    by_cases hle : cntGe p q = true
    · rw [if_pos hle]
      by_cases hp : p.2 == c <;> simp [List.filter, hp]
    · rw [if_neg hle]
      have hq : p.2 < q.2 := by
        simpa [cntGe, Nat.not_le] using hle
      by_cases hqc : q.2 == c
      · have hpc : (p.2 == c) = false := by
          have : q.2 = c := by simpa using hqc
          simp only [beq_eq_false_iff_ne, ne_eq]
          omega
        simp [List.filter, hqc, hpc, filter_insertLe_cnt c p qs]
      · by_cases hpc : p.2 == c <;>
          simp [List.filter, hqc, hpc, filter_insertLe_cnt c p qs]

theorem filter_isort_cnt (c : Nat) :
    ∀ l : List (String × Nat),
      (isort cntGe l).filter (fun x => x.2 == c) =
        l.filter (fun x => x.2 == c)
  | [] => rfl
  | p :: ps => by
    rw [isort, filter_insertLe_cnt c p (isort cntGe ps)]
    by_cases hp : p.2 == c <;> simp [List.filter, hp, filter_isort_cnt c ps]

theorem pair_sublist_isort_cnt {p q : String × Nat} {l : List (String × Nat)}
    (h : [p, q].Sublist l) (hpq : p.2 = q.2) :
    [p, q].Sublist (isort cntGe l) := by
  have hfil : [p, q].filter (fun x => x.2 == q.2) = [p, q] := by
    simp [List.filter, hpq]
  have h₁ : [p, q].Sublist (l.filter (fun x => x.2 == q.2)) := by
    rw [← hfil]; exact List.Sublist.filter _ h
  rw [← filter_isort_cnt q.2 l] at h₁
  exact h₁.trans (List.filter_sublist _)

/-! ### Properties of firstSeen -/

theorem mem_firstSeen {a : String} :
    ∀ {l : List String}, a ∈ firstSeen l ↔ a ∈ l
  | [] => Iff.rfl
  | x :: t => by
    have ih := @mem_firstSeen a t
    simp only [firstSeen, List.mem_cons, List.mem_filter, ih,
      Bool.not_eq_true', beq_eq_false_iff_ne, ne_eq]
    constructor
    · rintro (rfl | ⟨h, _⟩)
      · exact Or.inl rfl
      · exact Or.inr h
    · rintro (rfl | h)
      · exact Or.inl rfl
      · by_cases hax : a = x
        · exact Or.inl hax
        · exact Or.inr ⟨h, hax⟩

theorem nodup_firstSeen : ∀ l : List String, (firstSeen l).Nodup
  | [] => List.Pairwise.nil
  | x :: t => by
    rw [firstSeen]
    refine List.nodup_cons.mpr ⟨?_, List.Nodup.filter _ (nodup_firstSeen t)⟩
    intro hx
    rcases List.mem_filter.mp hx with ⟨-, hne⟩
    simp at hne

theorem firstSeen_ne_nil {x : String} {t : List String} :
    firstSeen (x :: t) ≠ [] := by
  rw [firstSeen]; exact List.cons_ne_nil _ _

/-- first occurrences keep their relative order in `firstSeen`. -/
theorem pair_sublist_firstSeen {a b : String} :
    ∀ {l : List String}, a ≠ b → a ∈ l → b ∈ l →
      firstIdx a l < firstIdx b l → [a, b].Sublist (firstSeen l)
  | [], _, ha, _, _ => absurd ha (List.not_mem_nil a)
  | x :: t, hne, ha, hb, hidx => by
    rw [firstSeen]
    by_cases hax : a = x
    · subst hax
      have hbt : b ∈ t := by
        rcases List.mem_cons.mp hb with heq | h
        · exact absurd heq.symm hne
        · exact h
      have hmem : b ∈ (firstSeen t).filter (fun y => !(y == a)) := by
        refine List.mem_filter.mpr ⟨mem_firstSeen.mpr hbt, ?_⟩
        simp only [Bool.not_eq_true', beq_eq_false_iff_ne, ne_eq]
        exact fun h => hne h.symm
      exact List.Sublist.cons₂ a (List.singleton_sublist.mpr hmem)
    · have hxa : (x == a) = false := by
        simp only [beq_eq_false_iff_ne, ne_eq]
        exact fun h => hax h.symm
      have hbx : b ≠ x := by
        rintro rfl
        simp [firstIdx, List.findIdx_cons, hxa] at hidx
      have hxb : (x == b) = false := by
        simp only [beq_eq_false_iff_ne, ne_eq]
        exact fun h => hbx h.symm
      have hat : a ∈ t := (List.mem_cons.mp ha).resolve_left hax
      have hbt : b ∈ t := (List.mem_cons.mp hb).resolve_left hbx
      have hidx' : firstIdx a t < firstIdx b t := by
        simp only [firstIdx, List.findIdx_cons, hxa, hxb, cond_false] at hidx ⊢
        omega
      have ih := pair_sublist_firstSeen hne hat hbt hidx'
      have hfil : [a, b].Sublist ((firstSeen t).filter (fun y => !(y == x))) := by
        have hax' : (a == x) = false := by
          simp only [beq_eq_false_iff_ne, ne_eq]; exact hax
        have hbx' : (b == x) = false := by
          simp only [beq_eq_false_iff_ne, ne_eq]; exact hbx
        have hab : [a, b].filter (fun y => !(y == x)) = [a, b] := by
          simp [List.filter, hax', hbx']
        rw [← hab]
        exact List.Sublist.filter _ ih
      exact hfil.cons x

/-! ### Maximum over a list of naturals -/

theorem foldr_max_mem : ∀ {l : List Nat}, l ≠ [] → l.foldr max 0 ∈ l := by
  intro l h
  induction l with
  | nil => simp at h
  | cons a t ih =>
    cases t with
    | nil => simp
    | cons b t' =>
      rcases max_choice a ((b :: t').foldr max 0) with h1 | h1 <;>
        simp only [List.foldr] at *
      · rw [h1]; exact List.mem_cons_self _ _
      · rw [h1]; exact List.mem_cons_of_mem _ (ih (by simp))

theorem le_foldr_max : ∀ {l : List Nat} {x : Nat}, x ∈ l → x ≤ l.foldr max 0 := by
  intro l x hx
  induction l with
  | nil => simp at hx
  | cons a t ih =>
    rcases List.mem_cons.mp hx with rfl | hx'
    · exact le_max_left _ _
    · exact le_trans (ih hx') (le_max_right _ _)

/-! ### Properties of the mode -/

theorem pdMode_eq_nil_iff {xs : List (Option String)} :
    pdMode xs = [] ↔ xs.filterMap id = [] := by
  constructor
  · intro h
    by_contra hne
    obtain ⟨v, t, hvt⟩ := List.exists_cons_of_ne_nil hne
    have hksne : isort strLe (firstSeen (xs.filterMap id)) ≠ [] := by
      intro hnil
      have hlen := (perm_isort strLe (firstSeen (xs.filterMap id))).length_eq
      rw [hnil] at hlen
      simp only [List.length_nil] at hlen
      have h2 : firstSeen (xs.filterMap id) = [] :=
        List.length_eq_zero.mp hlen.symm
      rw [hvt] at h2
      exact firstSeen_ne_nil h2
    set vs := xs.filterMap id with hvs
    set ks := isort strLe (firstSeen vs) with hks
    set mx := (ks.map (fun k => vs.count k)).foldr max 0 with hmx
    have hmapne : ks.map (fun k => vs.count k) ≠ [] := by
      intro h2
      exact hksne (List.map_eq_nil_iff.mp h2)
    have hmem := foldr_max_mem hmapne
    rw [← hmx] at hmem
    rcases List.mem_map.mp hmem with ⟨k, hk, hkc⟩
    have : k ∈ pdMode xs := by
      rw [pdMode]
      refine List.mem_filter.mpr ⟨hk, ?_⟩
      simpa using hkc
    rw [h] at this
    exact List.not_mem_nil _ this
  · intro h
    simp [pdMode, h, firstSeen, isort]

theorem modeStat_eq_none_iff {xs : List (Option String)} :
    modeStat xs = none ↔ xs.filterMap id = [] := by
  rw [modeStat, List.head?_eq_none_iff]
  exact pdMode_eq_nil_iff

theorem modeStat_spec {xs : List (Option String)} {v : String}
    (h : modeStat xs = some v) :
    v ∈ xs.filterMap id ∧
      (∀ w ∈ xs.filterMap id,
        (xs.filterMap id).count w ≤ (xs.filterMap id).count v) ∧
      (∀ w ∈ xs.filterMap id,
        (xs.filterMap id).count w = (xs.filterMap id).count v →
          strLe v w = true) := by
  set vs := xs.filterMap id with hvs
  set ks := isort strLe (firstSeen vs) with hks
  set mx := (ks.map (fun k => vs.count k)).foldr max 0 with hmx
  have hpd : pdMode xs = ks.filter (fun k => vs.count k == mx) := rfl
  rw [modeStat, hpd] at h
  obtain ⟨t, ht⟩ := List.head?_eq_some_iff.mp h
  have hvmem : v ∈ ks.filter (fun k => vs.count k == mx) := by
    rw [ht]; exact List.mem_cons_self _ _
  rcases List.mem_filter.mp hvmem with ⟨hvks, hvcnt⟩
  have hvmx : vs.count v = mx := by simpa using hvcnt
  have hvvs : v ∈ vs := mem_firstSeen.mp (mem_isort.mp hvks)
  refine ⟨hvvs, ?_, ?_⟩
  · intro w hw
    have hwks : w ∈ ks := mem_isort.mpr (mem_firstSeen.mpr hw)
    have : vs.count w ∈ ks.map (fun k => vs.count k) :=
      List.mem_map.mpr ⟨w, hwks, rfl⟩
    rw [hvmx]
    exact le_foldr_max this
  · intro w hw hcnt
    have hwks : w ∈ ks := mem_isort.mpr (mem_firstSeen.mpr hw)
    have hwfil : w ∈ ks.filter (fun k => vs.count k == mx) := by
      refine List.mem_filter.mpr ⟨hwks, ?_⟩
      simp [hcnt, hvmx]
    rw [ht] at hwfil
    rcases List.mem_cons.mp hwfil with heq | hwt
    · rw [heq]; exact strLe_refl v
    · have hsorted :
          (ks.filter (fun k => vs.count k == mx)).Pairwise
            (fun x y => strLe x y = true) :=
        List.Pairwise.sublist (List.filter_sublist ks)
          (@pairwise_isort _ strLe (fun _ _ _ h₁ h₂ => strLe_trans h₁ h₂)
            strLe_total _)
      rw [ht] at hsorted
      exact List.rel_of_pairwise_cons hsorted hwt

/-! ### Order is preserved when truncating to the first n entries -/

theorem pair_sublist_take {a b : α} :
    ∀ {l : List α} {n : Nat}, [a, b].Sublist l → l.Nodup → b ∈ l.take n →
      [a, b].Sublist (l.take n) := by
  intro l
  induction l with
  | nil =>
    intro n h _ hb
    simp at hb
  | cons x t ih =>
    intro n h hnd hb
    cases n with
    | zero => simp at hb
    | succ m =>
      rw [List.take_succ_cons] at hb ⊢
      cases h with
      | cons₂ _ h' =>
        have hbt : b ∈ t := List.singleton_sublist.mp h'
        have hba : b ≠ a := by
          rintro rfl
          exact absurd hbt (List.nodup_cons.mp hnd).1
        have hb' : b ∈ t.take m := by
          rcases List.mem_cons.mp hb with heq | h''
          · exact absurd heq hba
          · exact h''
        exact List.Sublist.cons₂ a (List.singleton_sublist.mpr hb')
      | cons _ h' =>
        have hbt : b ∈ t := h'.subset (by simp)
        have hbx : b ≠ x := by
          rintro rfl
          exact absurd hbt (List.nodup_cons.mp hnd).1
        have hb' : b ∈ t.take m := by
          rcases List.mem_cons.mp hb with heq | h''
          · exact absurd heq hbx
          · exact h''
        exact (ih h' (List.nodup_cons.mp hnd).2 hb').cons x

/-! ### Properties of valueCounts -/

theorem valueCounts_perm (xs : List String) :
    (valueCounts xs).Perm ((firstSeen xs).map (fun k => (k, xs.count k))) :=
  perm_isort _ _

theorem nodup_valueCounts (xs : List String) : (valueCounts xs).Nodup := by
  refine (valueCounts_perm xs).symm.nodup ?_
  refine List.Nodup.map ?_ (nodup_firstSeen xs)
  intro k₁ k₂ h
  exact congrArg Prod.fst h

theorem sorted_valueCounts (xs : List String) :
    (valueCounts xs).Pairwise (fun p q => q.2 ≤ p.2) := by
  have h := @pairwise_isort _ cntGe
    (fun a b c h₁ h₂ => by
      simp only [cntGe, decide_eq_true_eq] at h₁ h₂ ⊢
      omega)
    (fun a b => by
      simp only [cntGe, decide_eq_true_eq]
      omega)
    ((firstSeen xs).map (fun k => (k, xs.count k)))
  exact h.imp (fun hab => by simpa [cntGe] using hab)

theorem mem_valueCounts {xs : List String} {p : String × Nat} :
    p ∈ valueCounts xs ↔ p ∈ (firstSeen xs).map (fun k => (k, xs.count k)) :=
  (valueCounts_perm xs).mem_iff

/-! ### Properties of the brand and search filters -/

theorem mem_brandRows_of_mem_searchedRows {f : Frame} {b s : String}
    {l : Listing} (h : l ∈ searchedRows f b s) : l ∈ brandRows f b := by
  rw [searchedRows] at h
  split at h
  · exact h
  · exact (List.mem_filter.mp h).1

theorem model_isSome_of_mem_brandRows {f : Frame} {b : String} {l : Listing}
    (h : l ∈ brandRows f b) : l.model.isSome = true :=
  (List.mem_filter.mp h).2

theorem manufacturer_of_mem_brandRows {f : Frame} {b : String} {l : Listing}
    (h : l ∈ brandRows f b) : l.manufacturer = some b := by
  have h1 := (List.mem_filter.mp (List.filter_sublist _ |>.subset h)).2
  exact by simpa using h1

/-! ### The groups of `groupby('model')` partition the grouped rows -/

theorem flatten_groups_perm :
    ∀ (ks : List String) (rows : List Listing), ks.Nodup →
      (∀ l ∈ rows, ∃ m, l.model = some m ∧ m ∈ ks) →
      ((ks.map (fun m => groupOf rows m)).flatten).Perm rows
  | [], rows, _, hcov => by
    have hrows : rows = [] := by
      cases rows with
      | nil => rfl
      | cons r t =>
        rcases hcov r (List.mem_cons_self r t) with ⟨m, _, hm⟩
        exact absurd hm (List.not_mem_nil m)
    simp [hrows]
  | k :: ks, rows, hnd, hcov => by
    rcases List.nodup_cons.mp hnd with ⟨hk, hnd'⟩
    rw [List.map_cons, List.flatten_cons]
    have hmapeq : ks.map (fun m => groupOf rows m) =
        ks.map
          (fun m => groupOf (rows.filter (fun l => !(l.model == some k))) m) := by
      apply List.map_congr_left
      intro m hm
      have hmk : m ≠ k := fun h => hk (h ▸ hm)
      rw [groupOf, groupOf, List.filter_filter]
      apply List.filter_congr
      intro l _
      by_cases hlm : l.model = some m
      · have h1 : (l.model == some m) = true := by simp [hlm]
        have h2 : (l.model == some k) = false := by simp [hlm, hmk]
        simp [h1, h2]
      · have h1 : (l.model == some m) = false := by simp [hlm]
        simp [h1]
    have hcov' : ∀ l ∈ rows.filter (fun l => !(l.model == some k)),
        ∃ m, l.model = some m ∧ m ∈ ks := by
      intro l hl
      rcases List.mem_filter.mp hl with ⟨hlr, hlk⟩
      rcases hcov l hlr with ⟨m, hlm, hmks⟩
      refine ⟨m, hlm, ?_⟩
      rcases List.mem_cons.mp hmks with rfl | hmk
      · exfalso
        rw [hlm] at hlk
        simp at hlk
      · exact hmk
    have ih := flatten_groups_perm ks
      (rows.filter (fun l => !(l.model == some k))) hnd' hcov'
    have step1 :
        (groupOf rows k ++ (ks.map (fun m => groupOf rows m)).flatten).Perm
          (groupOf rows k ++ rows.filter (fun l => !(l.model == some k))) := by
      rw [hmapeq]
      exact List.Perm.append_left _ ih
    exact step1.trans (List.filter_append_perm _ rows)

theorem nodup_modelKeys (rows : List Listing) : (modelKeys rows).Nodup :=
  (perm_isort strLe _).symm.nodup (nodup_firstSeen _)

theorem exists_row_of_mem_modelKeys {rows : List Listing} {m : String}
    (h : m ∈ modelKeys rows) : ∃ l ∈ rows, l.model = some m := by
  rw [modelKeys] at h
  have h1 := mem_firstSeen.mp (mem_isort.mp h)
  rcases List.mem_filterMap.mp h1 with ⟨l, hl, hlm⟩
  exact ⟨l, hl, hlm⟩

theorem mem_modelKeys_of_model {rows : List Listing} {l : Listing} {m : String}
    (hl : l ∈ rows) (hm : l.model = some m) : m ∈ modelKeys rows := by
  rw [modelKeys]
  exact mem_isort.mpr
    (mem_firstSeen.mpr (List.mem_filterMap.mpr ⟨l, hl, hm⟩))

theorem groups_partition (rows : List Listing)
    (hmodels : ∀ l ∈ rows, l.model.isSome = true) :
    (((modelKeys rows).map (fun m => groupOf rows m)).flatten).Perm rows := by
  apply flatten_groups_perm _ _ (nodup_modelKeys rows)
  intro l hl
  rcases Option.isSome_iff_exists.mp (hmodels l hl) with ⟨m, hm⟩
  exact ⟨m, hm, mem_modelKeys_of_model hl hm⟩

/-! ### Mean and median auxiliaries -/

theorem filterMap_id_all_some {β : Type _} :
    ∀ {xs : List (Option β)}, (∀ x ∈ xs, x.isSome = true) →
      (xs.filterMap id).length = xs.length
  | [], _ => rfl
  | x :: t, h => by
    rcases Option.isSome_iff_exists.mp (h x (List.mem_cons_self x t)) with ⟨v, rfl⟩
    rw [List.filterMap_cons]
    simp only [id_eq, List.length_cons]
    rw [filterMap_id_all_some (fun y hy => h y (List.mem_cons_of_mem _ hy))]

theorem seriesMean_of_all_some {xs : List (Option ℚ)} (hne : xs ≠ [])
    (hs : ∀ x ∈ xs, x.isSome = true) :
    seriesMean xs = some ((xs.filterMap id).sum / (xs.length : ℚ)) := by
  have hlen : (xs.filterMap id).length = xs.length := filterMap_id_all_some hs
  have hfne : xs.filterMap id ≠ [] := by
    intro h
    rw [h] at hlen
    simp only [List.length_nil] at hlen
    exact hne (List.length_eq_zero.mp hlen.symm)
  simp only [seriesMean]
  rw [if_neg (by simp [hfne]), hlen]

theorem median_eq_none_iff {xs : List ℚ} : median xs = none ↔ xs = [] := by
  constructor
  · intro h
    by_contra hne
    have hsne : isort ratLe xs ≠ [] := by
      intro h2
      have hlen := (perm_isort ratLe xs).length_eq
      rw [h2] at hlen
      simp only [List.length_nil] at hlen
      exact hne (List.length_eq_zero.mp hlen.symm)
    simp only [median] at h
    rw [if_neg (by simp [hsne])] at h
    split at h <;> simp at h
  · intro h
    subst h
    simp [median, isort]

/-! ### Access to the result of the Models-by-Company block -/

theorem mem_modelsForManufacturer {f : Frame} {b s : String} {t : ModelSummary}
    (h : t ∈ modelsForManufacturer f b s) :
    t.model ∈ modelKeys (searchedRows f b s) ∧
      t = summarize t.model (groupOf (searchedRows f b s) t.model) := by
  simp only [modelsForManufacturer] at h
  split at h
  · exact absurd h (List.not_mem_nil t)
  · split at h
    · exact absurd h (List.not_mem_nil t)
    · rcases List.mem_map.mp h with ⟨m, hm, heq⟩
      have hmodel : t.model = m := by rw [← heq]; exact rfl
      rw [hmodel]
      exact ⟨hm, heq.symm⟩

/-! ## The claims -/

/-- **C1** (code_bug): the claim asserts that the Home metrics succeed with all
three counts zero on the empty Dataset, *including the zero-column frame that a
load failure produces*.  The code contradicts this: after a failed load,
`df = pd.DataFrame()` has no columns, the loaded frame indeed has zero rows,
yet the unguarded metrics block evaluates `df['manufacturer']`, which raises a
`KeyError` (modelled: `summaryMetrics` returns `none`).  Every other page
guards with `df.empty` and column checks, and the loader's contract is that an
empty Dataset is a displayable state, so the missing guard is a slip of the
code.  On any zero-row frame that does have the columns, the metrics are
`(0, 0, 0)` as claimed. -/
theorem C1_metrics_fail_after_load_failure :
    (load_data (Except.error "FileNotFoundError")).1.rows.length = 0 ∧
      summaryMetrics (load_data (Except.error "FileNotFoundError")).1 = none ∧
      summaryMetrics ⟨allCols, []⟩ = some ⟨0, 0, 0⟩ :=
  ⟨rfl, rfl, rfl⟩

/-- **C2** (counterexample): in a group whose drive column reads
`[rwd, rwd, fwd, fwd]`, both values tie at frequency 2 and `rwd` appears first
in row order, so the claim demands `rwd`; the code's `x.mode().iat[0]` takes
the head of the ascending-sorted modes and yields `fwd`. -/
theorem C2_counterexample :
    modeStat [some "rwd", some "rwd", some "fwd", some "fwd"] = some "fwd" ∧
      specFirstSeenMode [some "rwd", some "rwd", some "fwd", some "fwd"] =
        some "rwd" ∧
      modeStat [some "rwd", some "rwd", some "fwd", some "fwd"] ≠
        specFirstSeenMode [some "rwd", some "rwd", some "fwd", some "fwd"] := by
  refine ⟨by decide, by decide, by decide⟩

/-- **C2** (amended): every modal value the aggregation returns is a non-null
group value of highest frequency, and when several values tie for the highest
frequency the smallest in ascending code-point order is selected (pandas sorts
the modes) — not the one appearing first in the group's row order.  On
`[fwd, fwd, rwd]` the mode is still `fwd`, as the claim's example states. -/
theorem C2_mode_highest_frequency (xs : List (Option String)) (v : String)
    (h : modeStat xs = some v) :
    v ∈ xs.filterMap id ∧
      (∀ w ∈ xs.filterMap id,
        (xs.filterMap id).count w ≤ (xs.filterMap id).count v) ∧
      (∀ w ∈ xs.filterMap id,
        (xs.filterMap id).count w = (xs.filterMap id).count v →
          strLe v w = true) :=
  modeStat_spec h

/-- Closed instance of the amended C2 at the claim's own example
`[fwd, fwd, rwd]`. -/
theorem C2_mode_highest_frequency_witness :
    "fwd" ∈ ([some "fwd", some "fwd", some "rwd"] :
        List (Option String)).filterMap id ∧
      (∀ w ∈ ([some "fwd", some "fwd", some "rwd"] :
          List (Option String)).filterMap id,
        (([some "fwd", some "fwd", some "rwd"] :
          List (Option String)).filterMap id).count w ≤
          (([some "fwd", some "fwd", some "rwd"] :
            List (Option String)).filterMap id).count "fwd") ∧
      (∀ w ∈ ([some "fwd", some "fwd", some "rwd"] :
          List (Option String)).filterMap id,
        (([some "fwd", some "fwd", some "rwd"] :
          List (Option String)).filterMap id).count w =
          (([some "fwd", some "fwd", some "rwd"] :
            List (Option String)).filterMap id).count "fwd" →
          strLe "fwd" w = true) :=
  C2_mode_highest_frequency [some "fwd", some "fwd", some "rwd"] "fwd"
    (by decide)

/-- **C3** (confirmed): every listing of the loaded Dataset has non-null
manufacturer, model, year, price, lat, long, cylinders, fuel and drive —
whatever the source file held, only rows passing the nine-column null-drop
survive `load_data`, and every page reads its rows from that frame. -/
theorem C3_loaded_rows_nonnull (src : Except String Frame) (l : Listing)
    (h : l ∈ (load_data src).1.rows) :
    l.manufacturer.isSome = true ∧ l.model.isSome = true ∧
      l.year.isSome = true ∧ l.price.isSome = true ∧ l.lat.isSome = true ∧
      l.long.isSome = true ∧ l.cylinders.isSome = true ∧
      l.fuel.isSome = true ∧ l.drive.isSome = true := by
  cases src with
  | error e => exact absurd h (List.not_mem_nil l)
  | ok f =>
    simp only [load_data] at h
    split at h
    · have hreq := (List.mem_filter.mp h).2
      simp only [requiredNonNull, Bool.and_eq_true] at hreq
      tauto
    · exact absurd h (List.not_mem_nil l)

/-- Closed instance of C3 at a loaded one-row frame. -/
theorem C3_loaded_rows_nonnull_witness :
    exRow.manufacturer.isSome = true ∧ exRow.model.isSome = true ∧
      exRow.year.isSome = true ∧ exRow.price.isSome = true ∧
      exRow.lat.isSome = true ∧ exRow.long.isSome = true ∧
      exRow.cylinders.isSome = true ∧ exRow.fuel.isSome = true ∧
      exRow.drive.isSome = true := by
  have hrows : (load_data (Except.ok ⟨allCols, [exRow]⟩)).1.rows = [exRow] := rfl
  have hmem : exRow ∈ (load_data (Except.ok ⟨allCols, [exRow]⟩)).1.rows := by
    rw [hrows]
    exact List.mem_cons_self _ _
  exact C3_loaded_rows_nonnull (Except.ok ⟨allCols, [exRow]⟩) exRow hmem

/-- **C4** (confirmed): on every failing load — a raised read/parse error, or a
parsed frame missing one of the nine required columns (e.g. `price`), which
makes `dropna(subset=...)` raise a `KeyError` into the same `except` branch —
`load_data` returns the zero-row empty frame together with a surfaced error
message; being a total function of the modelled read outcome, it never raises
and never ends the process. -/
theorem C4_load_failure_yields_empty (src : Except String Frame)
    (hfail : (∃ e, src = Except.error e) ∨
      (∃ f, src = Except.ok f ∧
        requiredCols.all (fun c => f.cols.contains c) = false)) :
    (load_data src).1.rows = [] ∧ (load_data src).2.isSome = true := by
  rcases hfail with ⟨e, rfl⟩ | ⟨f, rfl, hcols⟩
  · exact ⟨rfl, rfl⟩
  · simp only [load_data]
    rw [if_neg (by rw [hcols]; exact Bool.false_ne_true)]
    exact ⟨rfl, rfl⟩

/-- Closed instance of C4: a source file whose `price` column is absent loads
as the empty Dataset with a surfaced message. -/
theorem C4_load_failure_yields_empty_witness :
    (load_data (Except.ok ⟨colsNoPrice, [exRow]⟩)).1.rows = [] ∧
      (load_data (Except.ok ⟨colsNoPrice, [exRow]⟩)).2.isSome = true :=
  C4_load_failure_yields_empty (Except.ok ⟨colsNoPrice, [exRow]⟩)
    (Or.inr ⟨⟨colsNoPrice, [exRow]⟩, rfl, by decide⟩)

/-- **C9** (confirmed): the Models-by-Company summaries are returned in
strictly increasing lexicographic (code-point) order of model name —
`groupby('model')` sorts its keys (`sort=True` is the default) and
`reset_index` plus `iterrows` keep that order; the pipeline is a pure function
of the frame, the selected brand and the search string, so repeated calls with
identical inputs return the identical sequence. -/
theorem C9_models_sorted_lexicographically (f : Frame) (b s : String) :
    ((modelsForManufacturer f b s).map (fun t => t.model)).Pairwise
      (fun a c => strLt a c = true) := by
  simp only [modelsForManufacturer]
  split
  · simp
  · split
    · simp
    · rw [List.map_map]
      have hcongr : ∀ m ∈ modelKeys (searchedRows f b s),
          ((fun t : ModelSummary => t.model) ∘
            (fun m => summarize m (groupOf (searchedRows f b s) m))) m = m :=
        fun m _ => rfl
      rw [List.map_congr_left hcongr, List.map_id']
      have hle : (modelKeys (searchedRows f b s)).Pairwise
          (fun a c => strLe a c = true) :=
        @pairwise_isort _ strLe (fun _ _ _ h₁ h₂ => strLe_trans h₁ h₂)
          strLe_total _
      have hnd : (modelKeys (searchedRows f b s)).Pairwise (fun a c => a ≠ c) :=
        nodup_modelKeys _
      exact (hle.and hnd).imp fun hac =>
        strLt_of_strLe_of_ne hac.1 hac.2

/-- **C10** (confirmed): `load_data` enforces non-null values only on the nine
required columns, so a row whose `type` or `transmission` is null is kept
whenever the nine required fields are present, reaches the loaded frame, and is
handed to the downstream views — here as a (transmission, type) pair of the
Transmission-vs-Type histogram; moreover the keep/drop decision never reads the
`type` or `transmission` fields at all. -/
theorem C10_type_transmission_not_enforced (f : Frame) (l : Listing)
    (hcols : requiredCols.all (fun c => f.cols.contains c) = true)
    (hl : l ∈ f.rows) (hreq : requiredNonNull l = true) :
    l ∈ (load_data (Except.ok f)).1.rows ∧
      (l.transmission, l.type) ∈
        transmissionByType (load_data (Except.ok f)).1 ∧
      (∀ t tr : Option String,
        requiredNonNull { l with type := t, transmission := tr } =
          requiredNonNull l) := by
  have hmem : l ∈ (load_data (Except.ok f)).1.rows := by
    simp only [load_data]
    rw [if_pos hcols]
    exact List.mem_filter.mpr ⟨hl, hreq⟩
  exact ⟨hmem, List.mem_map.mpr ⟨l, hmem, rfl⟩, fun t tr => rfl⟩

/-- Closed instance of C10: a row with null type and transmission survives the
load and appears in the Transmission-vs-Type data. -/
theorem C10_type_transmission_not_enforced_witness :
    exRowNullType ∈
        (load_data (Except.ok ⟨allCols, [exRowNullType]⟩)).1.rows ∧
      (exRowNullType.transmission, exRowNullType.type) ∈
        transmissionByType
          (load_data (Except.ok ⟨allCols, [exRowNullType]⟩)).1 ∧
      (∀ t tr : Option String,
        requiredNonNull { exRowNullType with type := t, transmission := tr } =
          requiredNonNull exRowNullType) :=
  C10_type_transmission_not_enforced ⟨allCols, [exRowNullType]⟩ exRowNullType
    (by decide) (List.mem_cons_self _ _) rfl

/-- **C7** (counterexample): with search string `x.z`, `str.contains` (default
`regex=True`) interprets the dot as a wildcard, so the row with model `xyz` is
kept and a summary for `xyz` is returned — yet `xyz` does not *contain* the
substring `x.z`, so the claim's filtered subset (case-insensitive literal
containment) is empty and the returned summary's model is absent from it. -/
theorem C7_counterexample :
    (modelsForManufacturer exF7 "m" "x.z").map (fun t => t.model) = ["xyz"] ∧
      specSearchedRows exF7 "m" "x.z" = [] := by
  exact ⟨by decide, by decide⟩

/-- **C7** (amended): `modelsForManufacturer` groups exactly the rows that
match the manufacturer by case-sensitive equality, have non-null model, and —
when a search string is given — whose lowercased model name matches the
lowercased search string as a regular expression (which coincides with
case-insensitive substring containment when the search has no regex
metacharacter).  Every returned summary's model is backed by a row of that
filtered-and-searched subset, the groups partition the subset with no row in
more than one group, and an empty subset yields the empty sequence. -/
theorem C7_groups_partition (f : Frame) (b s : String) :
    (searchedRows f b s = [] → modelsForManufacturer f b s = []) ∧
      (∀ t ∈ modelsForManufacturer f b s,
        ∃ l ∈ searchedRows f b s, l.model = some t.model) ∧
      (((modelKeys (searchedRows f b s)).map
          (fun m => groupOf (searchedRows f b s) m)).flatten).Perm
        (searchedRows f b s) := by
  refine ⟨?_, ?_, ?_⟩
  · intro hsr
    simp only [modelsForManufacturer]
    split
    · rfl
    · split
      · rfl
      · rename_i hne
        rw [hsr] at hne
        simp at hne
  · intro t ht
    have hmem := mem_modelsForManufacturer ht
    exact exists_row_of_mem_modelKeys hmem.1
  · apply groups_partition
    intro l hl
    exact model_isSome_of_mem_brandRows (mem_brandRows_of_mem_searchedRows hl)

/-- Closed instance of the amended C7: the spec's own scenario — a Dataset with
no rows for `Ford` yields the empty sequence of summaries. -/
theorem C7_groups_partition_witness :
    modelsForManufacturer (⟨allCols, []⟩ : Frame) "Ford" "" = [] :=
  (C7_groups_partition (⟨allCols, []⟩ : Frame) "Ford" "").1 rfl

/-- **C5** (confirmed): `topManufacturers` returns at most ten (manufacturer,
count) pairs — exactly `min 10 (number of distinct manufacturers)` — each pair
carrying the listing count of its manufacturer; the sequence is sorted by
descending count; every distinct manufacturer left out has a count no larger
than any returned one; and when two returned manufacturers tie in count, the
one whose first row appears earlier in the Dataset's row order precedes the
other.  (`value_counts` lists distinct values in first-appearance order and
sorts by count descending preserving that order among ties; `nlargest(10)`
keeps the first ten entries of the sorted series.) -/
theorem C5_top_manufacturers (f : Frame) :
    (topManufacturers f).length =
        min 10
          (firstSeen (f.rows.filterMap (fun l => l.manufacturer))).length ∧
      (∀ p ∈ topManufacturers f,
        p.1 ∈ f.rows.filterMap (fun l => l.manufacturer) ∧
          p.2 = (f.rows.filterMap (fun l => l.manufacturer)).count p.1) ∧
      (topManufacturers f).Pairwise (fun p q => q.2 ≤ p.2) ∧
      (∀ q ∈ valueCounts (f.rows.filterMap (fun l => l.manufacturer)),
        q ∉ topManufacturers f → ∀ p ∈ topManufacturers f, q.2 ≤ p.2) ∧
      (∀ a b ca cb, (a, ca) ∈ topManufacturers f →
        (b, cb) ∈ topManufacturers f → ca = cb → a ≠ b →
        firstIdx a (f.rows.filterMap (fun l => l.manufacturer)) <
          firstIdx b (f.rows.filterMap (fun l => l.manufacturer)) →
        [(a, ca), (b, cb)].Sublist (topManufacturers f)) := by
  set ms := f.rows.filterMap (fun l => l.manufacturer) with hms
  have htop : topManufacturers f = (valueCounts ms).take 10 := by
    rw [topManufacturers, ← hms]
  refine ⟨?_, ?_, ?_, ?_, ?_⟩
  · rw [htop, List.length_take]
    congr 1
    rw [(valueCounts_perm ms).length_eq, List.length_map]
  · intro p hp
    rw [htop] at hp
    have hvc : p ∈ valueCounts ms := (List.take_sublist _ _).subset hp
    rcases List.mem_map.mp (mem_valueCounts.mp hvc) with ⟨k, hk, heq⟩
    rw [← heq]
    exact ⟨mem_firstSeen.mp hk, rfl⟩
  · rw [htop]
    exact List.Pairwise.sublist (List.take_sublist _ _) (sorted_valueCounts ms)
  · intro q hq hqt p hp
    rw [htop] at hqt hp
    have hsorted := sorted_valueCounts ms
    rw [← List.take_append_drop 10 (valueCounts ms)] at hsorted
    have hcross := (List.pairwise_append.mp hsorted).2.2
    have hqd : q ∈ (valueCounts ms).drop 10 := by
      have hq' : q ∈ (valueCounts ms).take 10 ++ (valueCounts ms).drop 10 := by
        rw [List.take_append_drop]
        exact hq
      rcases List.mem_append.mp hq' with h | h
      · exact absurd h hqt
      · exact h
    exact hcross p hp q hqd
  · intro a b ca cb ha hb hcc hab hidx
    rw [htop] at ha hb
    have hpa : (a, ca) ∈ valueCounts ms := (List.take_sublist _ _).subset ha
    have hpb : (b, cb) ∈ valueCounts ms := (List.take_sublist _ _).subset hb
    rcases List.mem_map.mp (mem_valueCounts.mp hpa) with ⟨k₁, hk₁, he₁⟩
    rcases List.mem_map.mp (mem_valueCounts.mp hpb) with ⟨k₂, hk₂, he₂⟩
    have hk₁a : k₁ = a := congrArg Prod.fst he₁
    have hk₂b : k₂ = b := congrArg Prod.fst he₂
    have hca : ca = ms.count a := by
      have h2 := congrArg Prod.snd he₁
      simp only at h2
      rw [← h2, hk₁a]
    have hcb : cb = ms.count b := by
      have h2 := congrArg Prod.snd he₂
      simp only at h2
      rw [← h2, hk₂b]
    have hams : a ∈ ms := mem_firstSeen.mp (hk₁a ▸ hk₁)
    have hbms : b ∈ ms := mem_firstSeen.mp (hk₂b ▸ hk₂)
    have hpair := pair_sublist_firstSeen hab hams hbms hidx
    have hmap := hpair.map (fun k => (k, ms.count k))
    have hpairs : [(a, ca), (b, cb)].Sublist
        ((firstSeen ms).map (fun k => (k, ms.count k))) := by
      rw [hca, hcb]
      exact hmap
    have hsub : [(a, ca), (b, cb)].Sublist (valueCounts ms) :=
      pair_sublist_isort_cnt hpairs hcc
    rw [htop]
    exact pair_sublist_take hsub (nodup_valueCounts ms) hb

/-- Closed instance of C5 at the claim's example: with counts A:5, B:5, C:3 and
A first seen before B, the pair A precedes the pair B in the output. -/
theorem C5_top_manufacturers_witness :
    [("A", 5), ("B", 5)].Sublist (topManufacturers exF5) :=
  (C5_top_manufacturers exF5).2.2.2.2 "A" "B" 5 5 (by decide) (by decide) rfl
    (by decide) (by decide)

/-- **C6** (confirmed): for any manufacturer with at least one listing, the
heatmap block succeeds and returns as center the arithmetic mean of the
filtered rows' latitudes and longitudes and as points every filtered row's
(lat, long) pair verbatim, in row order.  (The latitude/longitude non-null
hypotheses hold for every loaded Dataset by the C3 invariant; `Series.mean`
skips nulls, so they are needed to express the mean as sum over row count.) -/
theorem C6_brand_heat_points (f : Frame) (b : String)
    (hne : f.rows.filter (fun l => l.manufacturer == some b) ≠ [])
    (hlat : ∀ l ∈ f.rows.filter (fun l => l.manufacturer == some b),
      l.lat.isSome = true)
    (hlong : ∀ l ∈ f.rows.filter (fun l => l.manufacturer == some b),
      l.long.isSome = true) :
    brandHeatPoints f b =
      some
        { centerLat :=
            some
              (((f.rows.filter (fun l => l.manufacturer == some b)).filterMap
                  (fun l => l.lat)).sum /
                ((f.rows.filter
                    (fun l => l.manufacturer == some b)).length : ℚ))
          centerLong :=
            some
              (((f.rows.filter (fun l => l.manufacturer == some b)).filterMap
                  (fun l => l.long)).sum /
                ((f.rows.filter
                    (fun l => l.manufacturer == some b)).length : ℚ))
          points :=
            (f.rows.filter (fun l => l.manufacturer == some b)).map
              (fun l => (l.lat, l.long)) } := by
  set bd := f.rows.filter (fun l => l.manufacturer == some b) with hbd
  have hne' : bd.map (fun l => l.lat) ≠ [] := by
    intro h
    exact hne (List.map_eq_nil_iff.mp h)
  have hne'' : bd.map (fun l => l.long) ≠ [] := by
    intro h
    exact hne (List.map_eq_nil_iff.mp h)
  have hall : ∀ x ∈ bd.map (fun l => l.lat), x.isSome = true := by
    intro x hx
    rcases List.mem_map.mp hx with ⟨l, hl, rfl⟩
    exact hlat l hl
  have hall' : ∀ x ∈ bd.map (fun l => l.long), x.isSome = true := by
    intro x hx
    rcases List.mem_map.mp hx with ⟨l, hl, rfl⟩
    exact hlong l hl
  have hmlat : seriesMean (bd.map (fun l => l.lat)) =
      some ((bd.filterMap (fun l => l.lat)).sum / (bd.length : ℚ)) := by
    rw [seriesMean_of_all_some hne' hall, List.filterMap_map,
      List.length_map]
    rfl
  have hmlong : seriesMean (bd.map (fun l => l.long)) =
      some ((bd.filterMap (fun l => l.long)).sum / (bd.length : ℚ)) := by
    rw [seriesMean_of_all_some hne'' hall', List.filterMap_map,
      List.length_map]
    rfl
  simp only [brandHeatPoints, ← hbd]
  rw [if_neg (by simp [hne]), hmlat, hmlong]

/-- Closed instance of C6 at the claim's example: rows (10,20) and (30,40) give
center (20,30) and both points verbatim. -/
theorem C6_brand_heat_points_witness :
    brandHeatPoints exF6 "X" =
      some
        { centerLat := some 20, centerLong := some 30,
          points := [(some 10, some 20), (some 30, some 40)] } := by
  have h := C6_brand_heat_points exF6 "X" (by decide) (by decide) (by decide)
  rw [h]
  norm_num [exF6, List.filter, List.filterMap, List.sum_cons, List.sum_nil]

theorem modeStat_modalOk (vals : List (Option String)) :
    modalOk vals (modeStat vals) := by
  constructor
  · exact modeStat_eq_none_iff
  · intro v hv
    have h := modeStat_spec hv
    exact ⟨h.1, h.2.1⟩

/-- **C8** (counterexample): a group with years 2001 and 2002 has median
2001.5; the code's `int(x.median())` truncates it to 2001, whereas the median
year rounded to an integer is 2002. -/
theorem C8_counterexample :
    yearStat [some 2001, some 2002] = some 2001 ∧
      (median (([some 2001, some 2002] : List (Option ℚ)).filterMap id)).map
          (fun q => round q) = some 2002 := by
  have hfm : ([some 2001, some 2002] : List (Option ℚ)).filterMap id =
      [2001, 2002] := rfl
  have hmed : median ([(2001 : ℚ), 2002]) = some (4003 / 2) := by
    simp only [median, isort, insertLe, ratLe]
    norm_num
  constructor
  · rw [yearStat, hfm, hmed]
    have htr : intTrunc (4003 / 2) = 2001 := by
      rw [intTrunc, if_neg (by norm_num)]
      norm_num
    rw [Option.map_some', htr]
  · rw [hfm, hmed, Option.map_some']
    norm_num [round_eq]

/-- **C8** (amended): every manufacturer+model group's summary holds the
arithmetic mean of the group's prices, the group's median year truncated
toward zero to an integer (Python `int()`, which agrees with rounding whenever
the median is itself an integer), and for each of drive, type, transmission,
fuel and cylinders a modal (highest-frequency) value of the group, with `N/A`
exactly when all of the group's values for that field are null. -/
theorem C8_summary_fields (f : Frame) (b s m : String)
    (hm : m ∈ modelKeys (searchedRows f b s)) :
    let g := groupOf (searchedRows f b s) m
    g ≠ [] ∧
      ((∀ l ∈ g, l.price.isSome = true) →
        (summarize m g).price =
          some ((g.filterMap (fun l => l.price)).sum / (g.length : ℚ))) ∧
      ((summarize m g).year = none ↔
        (g.map (fun l => l.year)).filterMap id = []) ∧
      (∀ q, median ((g.map (fun l => l.year)).filterMap id) = some q →
        (summarize m g).year = some (intTrunc q)) ∧
      modalOk (g.map (fun l => l.drive)) (summarize m g).drive ∧
      modalOk (g.map (fun l => l.type)) (summarize m g).type ∧
      modalOk (g.map (fun l => l.transmission)) (summarize m g).transmission ∧
      modalOk (g.map (fun l => l.fuel)) (summarize m g).fuel ∧
      modalOk (g.map (fun l => l.cylinders)) (summarize m g).cylinders := by
  intro g
  have hgne : g ≠ [] := by
    rcases exists_row_of_mem_modelKeys hm with ⟨l, hl, hlm⟩
    have hmem : l ∈ g := List.mem_filter.mpr ⟨hl, by simp [hlm]⟩
    exact List.ne_nil_of_mem hmem
  have hyear : (summarize m g).year =
      (median ((g.map (fun l => l.year)).filterMap id)).map intTrunc := rfl
  refine ⟨hgne, ?_, ?_, ?_, ?_, ?_, ?_, ?_, ?_⟩
  · intro hp
    have hne' : g.map (fun l => l.price) ≠ [] := fun h =>
      hgne (List.map_eq_nil_iff.mp h)
    have hall : ∀ x ∈ g.map (fun l => l.price), x.isSome = true := by
      intro x hx
      rcases List.mem_map.mp hx with ⟨l, hl, rfl⟩
      exact hp l hl
    have hpr : (summarize m g).price = seriesMean (g.map (fun l => l.price)) :=
      rfl
    rw [hpr, seriesMean_of_all_some hne' hall, List.filterMap_map,
      List.length_map]
    rfl
  · rw [hyear, Option.map_eq_none']
    exact median_eq_none_iff
  · intro q hq
    rw [hyear, hq]
    rfl
  · exact modeStat_modalOk _
  · exact modeStat_modalOk _
  · exact modeStat_modalOk _
  · exact modeStat_modalOk _
  · exact modeStat_modalOk _

/-- Closed instance of the amended C8: the group behind the summary for model
`x` is nonempty. -/
theorem C8_summary_fields_witness :
    groupOf (searchedRows exF8 "m" "") "x" ≠ [] := by
  have h := C8_summary_fields exF8 "m" "" "x" (by decide)
  exact h.1

end VehiclesDash
